import Mathlib

/-!
Verification of the express-manager repository: the SMS field extractor
(`parse_sms`) shared by `express_manager_complete.py` and
`express_manager_session.py`, the two record stores (the SQLite-backed
store of the complete variant and the in-memory session store), and the
session variant's JSON import block.

Strings are modelled as `List Char`; the regular-expression searches of
the source are embedded as explicit backtracking matchers that follow
Python `re.search` semantics (leftmost match, ordered alternation,
greedy quantifiers with backtracking) for the concrete patterns used.
-/

/-- Whitespace class, modelling Python's `\s` / `str.strip` on the
character repertoire of the courier messages (ASCII whitespace plus the
no-break and ideographic spaces). -/
def isPyWhitespace (c : Char) : Bool :=
  c = ' ' || c = '\t' || c = '\n' || c = '\r' || c = '\x0b' || c = '\x0c' ||
  c = ' ' || c = '　'

/-- `litMatch pat l` holds when the literal `pat` occurs at the head of `l`. -/
def litMatch : List Char → List Char → Bool
  | [], _ => true
  | _ :: _, [] => false
  | c :: cs, d :: ds => c = d && litMatch cs ds

/-- `re.search` position scan: try the anchored matcher `f` at every start
position from the left; the first position where it succeeds wins. -/
def search (f : List Char → Option (List Char)) : List Char → Option (List Char)
  | [] => f []
  | c :: rest =>
    match f (c :: rest) with
    | some r => some r
    | none => search f rest

/-- The `\*?` of the tracking pattern: skip one leading asterisk when
present.  When the asterisk is present but no digit follows it,
backtracking onto the asterisk itself also fails, since `*` is not a
digit, so skipping it unconditionally is faithful. -/
def starStrip : List Char → List Char
  | '*' :: r => r
  | r => r

/-- Anchored matcher for the tracking pattern `快递[:：]\*?(\d+)`:
the literal 快递, one of the two colon glyphs, an optional asterisk, then a
greedy run of at least one digit (the capture). -/
def tryTrackingAt : List Char → Option (List Char)
  | '快' :: '递' :: c :: rest =>
    if c = ':' || c = '：' then
      let digits := (starStrip rest).takeWhile Char.isDigit
      if digits = [] then none else some digits
    else none
  | _ => none

/-- The character class `[^，,。.请]` of the location pattern. -/
def isExcluded (c : Char) : Bool :=
  c = '，' || c = ',' || c = '。' || c = '.' || c = '请'

/-- The four arrival marker phrases `(?:已到|送至|存放在|到达)`, in pattern order. -/
def locMarkers : List (List Char) :=
  ["已到".data, "送至".data, "存放在".data, "到达".data]

/-- The closed set of facility suffix words `(?:快递站|驿站|代收点|菜鸟|丰巢|速递易)`. -/
def locSuffixes : List (List Char) :=
  ["快递站".data, "驿站".data, "代收点".data, "菜鸟".data, "丰巢".data, "速递易".data]

/-- Backtracking loop for `([^，,。.请]+(?:快递站|...))`: the greedy class run
is shortened one character at a time from length `n` down to 1; at each
split the suffix alternation is tried right after the run.  The capture is
the run together with the matched suffix word. -/
def locBacktrack (rest : List Char) : Nat → Option (List Char)
  | 0 => none
  | k + 1 =>
    match locSuffixes.find? (fun s => litMatch s (rest.drop (k + 1))) with
    | some s => some (rest.take (k + 1) ++ s)
    | none => locBacktrack rest k

/-- Anchored matcher for the location pattern
`(?:已到|送至|存放在|到达)([^，,。.请]+(?:快递站|驿站|代收点|菜鸟|丰巢|速递易))`.
The four markers start with distinct characters, so ordered alternation
coincides with `find?`. -/
def tryLocationAt (l : List Char) : Option (List Char) :=
  match locMarkers.find? (fun m => litMatch m l) with
  | none => none
  | some m =>
    let rest := l.drop m.length
    locBacktrack rest (rest.takeWhile (fun c => !isExcluded c)).length

/-- Python `str.strip`: drop whitespace from both ends. -/
def stripChars (l : List Char) : List Char :=
  ((l.dropWhile isPyWhitespace).reverse.dropWhile isPyWhitespace).reverse

/-- The alphanumeric class `[A-Za-z0-9]` (ASCII letters and digits). -/
def isAlnum (c : Char) : Bool := c.isAlpha || c.isDigit

/-- Backtracking loop for `([A-Za-z0-9]{4,8})` followed by one of the
literal `tails`: the greedy run length is tried from `n` down to 4; the
capture is the run. -/
def codeBacktrack (rest : List Char) (tails : List (List Char)) : Nat → Option (List Char)
  | 0 => none
  | k + 1 =>
    if k + 1 < 4 then none
    else if tails.any (fun t => litMatch t (rest.drop (k + 1))) then
      some (rest.take (k + 1))
    else codeBacktrack rest tails k

/-- Anchored matcher for code pattern 1, `请凭([A-Za-z0-9]{4,8})(?:前往|领取)`. -/
def tryCode1At (l : List Char) : Option (List Char) :=
  if litMatch ("请凭".data) l then
    let rest := l.drop 2
    codeBacktrack rest ["前往".data, "领取".data] (min (rest.takeWhile isAlnum).length 8)
  else none

/-- The separator class `[:：\s]` of code patterns 2 and 3. -/
def isSep (c : Char) : Bool := c = ':' || c = '：' || isPyWhitespace c

/-- Anchored matcher for `([A-Za-z0-9]{4,8})` preceded by a keyword and
`[:：\s]*`: after the keyword the maximal separator run is skipped (its
characters are never alphanumeric, so backtracking into the `*` cannot
produce further matches), then at least 4 alphanumerics are required and
the greedy capture takes at most 8. -/
def tryKeywordCodeAt (keyword : List Char) (l : List Char) : Option (List Char) :=
  if litMatch keyword l then
    let rest := (l.drop keyword.length).dropWhile isSep
    let run := rest.takeWhile isAlnum
    if 4 ≤ run.length then some (run.take 8) else none
  else none

/-- Anchored matcher for code pattern 2, `取件码[:：\s]*([A-Za-z0-9]{4,8})`. -/
def tryCode2At (l : List Char) : Option (List Char) :=
  tryKeywordCodeAt ("取件码".data) l

/-- Anchored matcher for code pattern 3, `验证码[:：\s]*([A-Za-z0-9]{4,8})`. -/
def tryCode3At (l : List Char) : Option (List Char) :=
  tryKeywordCodeAt ("验证码".data) l

/-- Anchored matcher for code pattern 4, `凭([A-Za-z0-9]{4,8})取件`. -/
def tryCode4At (l : List Char) : Option (List Char) :=
  if litMatch ("凭".data) l then
    let rest := l.drop 1
    codeBacktrack rest ["取件".data] (min (rest.takeWhile isAlnum).length 8)
  else none

/-- `re.search` with code pattern 1. -/
def searchCode1 (l : List Char) : Option (List Char) := search tryCode1At l

/-- `re.search` with code pattern 2. -/
def searchCode2 (l : List Char) : Option (List Char) := search tryCode2At l

/-- `re.search` with code pattern 3. -/
def searchCode3 (l : List Char) : Option (List Char) := search tryCode3At l

/-- `re.search` with code pattern 4. -/
def searchCode4 (l : List Char) : Option (List Char) := search tryCode4At l

/-- The tracking-id rule of `parse_sms`. -/
def findTracking (s : String) : Option String :=
  (search tryTrackingAt s.data).map String.mk

/-- The pickup-location rule of `parse_sms`, including the `.strip()`. -/
def findLocation (s : String) : Option String :=
  (search tryLocationAt s.data).map (fun cap => String.mk (stripChars cap))

/-- The pickup-code rule of `parse_sms`: the four patterns are tried in
their listed order over the whole input, first matching pattern wins. -/
def findCode (s : String) : Option String :=
  (match searchCode1 s.data with
   | some c => some c
   | none =>
     match searchCode2 s.data with
     | some c => some c
     | none =>
       match searchCode3 s.data with
       | some c => some c
       | none => searchCode4 s.data).map String.mk

/-- The result dictionary of `parse_sms`; a `none` field is an absent key. -/
structure ExtractedFields where
  tracking_id : Option String
  pickup_location : Option String
  pickup_code : Option String
deriving DecidableEq, Repr

/-- `parse_sms` (identical in both source files): empty input fails at
once; otherwise the three field rules run independently and the result is
`none` exactly when no rule captured anything. -/
def parse_sms (s : String) : Option ExtractedFields :=
  if s.data = [] then none
  else
    let t := findTracking s
    let l := findLocation s
    let c := findCode s
    if t = none ∧ l = none ∧ c = none then none
    else some ⟨t, l, c⟩

/-- A row of the `packages` table / an entry of `st.session_state.packages`. -/
structure Pkg where
  id : Int
  tracking_id : String
  pickup_code : String
  pickup_location : String
  status : String
  added_time : String
deriving DecidableEq, Repr

/-- The status values used by the source: `'待领取'` (pending). -/
def pendingStatus : String := "待领取"

/-- The status value `'已领取'` (collected). -/
def collectedStatus : String := "已领取"

namespace Db

/-- `mark_as_picked_up` of the SQLite variant: the `UPDATE` sets the
status of every row whose id matches, unconditionally on the current
status, and the returned boolean is `rowcount > 0`, i.e. whether any row
matched. -/
def mark_as_picked_up (tbl : List Pkg) (package_id : Int) : List Pkg × Bool :=
  (tbl.map (fun r => if r.id = package_id then { r with status := collectedStatus } else r),
   tbl.any (fun r => decide (r.id = package_id)))

/-- Descending insertion by `added_time` (lexicographic on the
`'YYYY-MM-DD HH:MM:SS'` strings, matching the byte order SQLite uses on
this TEXT column). -/
def insertByTimeDesc (r : Pkg) : List Pkg → List Pkg
  | [] => [r]
  | x :: xs =>
    if x.added_time ≤ r.added_time then r :: x :: xs
    else x :: insertByTimeDesc r xs

/-- Sort by `added_time` descending; models `ORDER BY added_time DESC`
(SQLite leaves the relative order of equal keys unspecified, so any
correct descending sort is a faithful model up to ties). -/
def sortByTimeDesc : List Pkg → List Pkg
  | [] => []
  | x :: xs => insertByTimeDesc x (sortByTimeDesc xs)

/-- `get_pending_packages` of the SQLite variant:
`SELECT ... WHERE status = '待领取' ORDER BY added_time DESC`. -/
def get_pending_packages (tbl : List Pkg) : List Pkg :=
  sortByTimeDesc (tbl.filter (fun r => decide (r.status = pendingStatus)))

end Db

namespace Session

/-- `mark_as_picked_up` of the session variant: scan the list, set the
first record with the given id to collected (whatever its current
status) and return `True`; return `False` when no id matches. -/
def mark_as_picked_up : List Pkg → Int → List Pkg × Bool
  | [], _ => ([], false)
  | p :: rest, package_id =>
    if p.id = package_id then ({ p with status := collectedStatus } :: rest, true)
    else
      let r := mark_as_picked_up rest package_id
      (p :: r.1, r.2)

/-- `get_pending_packages` of the session variant: a list comprehension
filtering on status, keeping insertion order (no sorting). -/
def get_pending_packages (pkgs : List Pkg) : List Pkg :=
  pkgs.filter (fun p => decide (p.status = pendingStatus))

/-- The session store's state: `st.session_state.packages` and
`st.session_state.next_id`. -/
structure SessionState where
  packages : List Pkg
  next_id : Int
deriving DecidableEq, Repr

/-- `add_package` of the session variant: the new record gets
`id = next_id` and the missing extracted fields default to `''`; it is
appended, the counter is advanced, and the old counter value is
returned.  `now` models `datetime.now().strftime(...)`. -/
def add_package (s : SessionState) (d : ExtractedFields) (now : String) : SessionState × Int :=
  let pkg : Pkg :=
    { id := s.next_id
      tracking_id := d.tracking_id.getD ("")
      pickup_code := d.pickup_code.getD ("")
      pickup_location := d.pickup_location.getD ("")
      status := pendingStatus
      added_time := now }
  (⟨s.packages ++ [pkg], s.next_id + 1⟩, s.next_id)

/-- A record of the imported JSON array, as far as the import block
inspects it: only the presence and value of its `id` key matter to
`max([pkg['id'] for pkg in data])`; a `none` id models an object without
an `id` key, whose subscription raises `KeyError`. -/
structure JRec where
  idOpt : Option Int
deriving DecidableEq, Repr

/-- The state the import block manipulates: the `packages` list (which
the block may overwrite with raw imported objects) and `next_id`. -/
structure ImportState where
  packages : List JRec
  next_id : Int
deriving DecidableEq, Repr

/-- Ids of the imported records; `none` when some record lacks an `id`
key, modelling the `KeyError` of the list comprehension. -/
def idsOf : List JRec → Option (List Int)
  | [] => some []
  | r :: rest =>
    match r.idOpt, idsOf rest with
    | some i, some is => some (i :: is)
    | _, _ => none

/-- Python `max` on a non-empty list of ints (the empty case is never
reached by the import block). -/
def maxList : List Int → Int
  | [] => 0
  | [i] => i
  | i :: j :: rest => max i (maxList (j :: rest))

/-- The import block of `main`: inside the `try`,
`st.session_state.packages = data` is executed first; then, when `data`
is non-empty, `max([pkg['id'] for pkg in data])` is computed — raising
(caught by the `except`, reported as failure) when an object lacks an
`id` key, with `packages` already overwritten and `next_id` untouched;
on success `next_id` becomes the maximum id plus one. -/
def importData (s : ImportState) (data : List JRec) : ImportState × Bool :=
  match data, idsOf data with
  | [], _ => (⟨data, s.next_id⟩, true)
  | _ :: _, some ids => (⟨data, maxList ids + 1⟩, true)
  | _ :: _, none => (⟨data, s.next_id⟩, false)

end Session

/-- All fields of a record except `status`; the frame that a status
transition must leave untouched. -/
def frameOf (r : Pkg) : Int × String × String × String × String :=
  (r.id, r.tracking_id, r.pickup_code, r.pickup_location, r.added_time)

/-- `a` was added no earlier than `b` (descending `added_time` order). -/
def timeGE (a b : Pkg) : Prop := b.added_time ≤ a.added_time

/-! ## Helper lemmas -/

theorem search_eq_some {f : List Char → Option (List Char)} :
    ∀ {l cap : List Char}, search f l = some cap → ∃ l₀, f l₀ = some cap := by
  intro l
  induction l with
  | nil => exact fun h => ⟨[], h⟩
  | cons c rest ih =>
    intro cap h
    rw [search] at h
    cases hf : f (c :: rest) with
    | some r =>
      rw [hf] at h
      exact ⟨c :: rest, by rw [hf]; exact h⟩
    | none =>
      rw [hf] at h
      exact ih h

theorem string_mk_ne_empty {l : List Char} (h : l ≠ []) : String.mk l ≠ "" := by
  intro he
  exact h (congrArg String.data he)

theorem mem_take_of_le_takeWhile {p : Char → Bool} :
    ∀ (l : List Char) (k : Nat), k ≤ (l.takeWhile p).length →
      ∀ c ∈ l.take k, p c = true := by
  intro l
  induction l with
  | nil =>
    intro k _ c hc
    simp at hc
  | cons a as ih =>
    intro k hk c hc
    cases k with
    | zero => simp at hc
    | succ k =>
      by_cases hpa : p a
      · rw [List.takeWhile_cons, if_pos hpa, List.length_cons] at hk
        rw [List.take_succ_cons, List.mem_cons] at hc
        rcases hc with rfl | hc
        · exact hpa
        · exact ih k (Nat.le_of_succ_le_succ hk) c hc
      · rw [List.takeWhile_cons, if_neg hpa] at hk
        simp at hk

theorem length_takeWhile_le' {p : Char → Bool} :
    ∀ (l : List Char), (l.takeWhile p).length ≤ l.length := by
  intro l
  induction l with
  | nil => simp
  | cons a as ih =>
    rw [List.takeWhile_cons]
    split
    · simpa using ih
    · simp

theorem tryTrackingAt_ne_nil {l d : List Char} (h : tryTrackingAt l = some d) :
    d ≠ [] := by
  unfold tryTrackingAt at h
  split at h
  · split at h
    · dsimp only at h
      split at h
      · exact absurd h (by simp)
      · rename_i hne
        injection h with h
        exact h ▸ hne
    · exact absurd h (by simp)
  · exact absurd h (by simp)

theorem codeBacktrack_shape {rest : List Char} {tails : List (List Char)} :
    ∀ {n : Nat} {cap : List Char}, n ≤ rest.length →
      codeBacktrack rest tails n = some cap →
      4 ≤ cap.length := by
  intro n
  induction n with
  | zero =>
    intro cap _ h
    simp [codeBacktrack] at h
  | succ k ih =>
    intro cap hn h
    rw [codeBacktrack] at h
    split at h
    · exact absurd h (by simp)
    · rename_i hge
      split at h
      · injection h with h
        have hlen : cap.length = k + 1 := by
          rw [← h, List.length_take]
          omega
        omega
      · exact ih (Nat.le_of_succ_le hn) h

theorem codeBacktrack_ne_nil {rest : List Char} {tails : List (List Char)}
    {n : Nat} {cap : List Char} (hn : n ≤ rest.length)
    (h : codeBacktrack rest tails n = some cap) : cap ≠ [] := by
  have := codeBacktrack_shape hn h
  intro hnil
  rw [hnil] at this
  simp at this

theorem tryCode1At_ne_nil {l cap : List Char} (h : tryCode1At l = some cap) :
    cap ≠ [] := by
  unfold tryCode1At at h
  split at h
  · exact codeBacktrack_ne_nil
      (le_trans (min_le_left _ _) (length_takeWhile_le' _)) h
  · exact absurd h (by simp)

theorem tryCode4At_ne_nil {l cap : List Char} (h : tryCode4At l = some cap) :
    cap ≠ [] := by
  unfold tryCode4At at h
  split at h
  · exact codeBacktrack_ne_nil
      (le_trans (min_le_left _ _) (length_takeWhile_le' _)) h
  · exact absurd h (by simp)

theorem tryKeywordCodeAt_ne_nil {kw l cap : List Char}
    (h : tryKeywordCodeAt kw l = some cap) : cap ≠ [] := by
  unfold tryKeywordCodeAt at h
  split at h
  · dsimp only at h
    split at h
    · rename_i hge
      injection h with h
      intro hnil
      rw [← h] at hnil
      have hlen := congrArg List.length hnil
      rw [List.length_take, List.length_nil] at hlen
      omega
    · exact absurd h (by simp)
  · exact absurd h (by simp)

theorem locBacktrack_shape {rest : List Char} :
    ∀ {n : Nat} {cap : List Char},
      n ≤ (rest.takeWhile (fun c => !isExcluded c)).length →
      locBacktrack rest n = some cap →
      ∃ run s, s ∈ locSuffixes ∧ run ≠ [] ∧
        (∀ c ∈ run, isExcluded c = false) ∧ cap = run ++ s := by
  intro n
  induction n with
  | zero =>
    intro cap _ h
    simp [locBacktrack] at h
  | succ k ih =>
    intro cap hn h
    rw [locBacktrack] at h
    cases hf : locSuffixes.find? (fun s => litMatch s (rest.drop (k + 1))) with
    | some s =>
      rw [hf] at h
      injection h with h
      refine ⟨rest.take (k + 1), s, List.mem_of_find?_eq_some hf, ?_, ?_, h.symm⟩
      · have hr : k + 1 ≤ rest.length :=
          le_trans hn (length_takeWhile_le' rest)
        intro hnil
        have hlen := congrArg List.length hnil
        rw [List.length_take, List.length_nil] at hlen
        omega
      · intro c hc
        have := mem_take_of_le_takeWhile rest (k + 1) hn c hc
        simpa using this
    | none =>
      rw [hf] at h
      exact ih (Nat.le_of_succ_le hn) h

theorem tryLocationAt_shape {l cap : List Char} (h : tryLocationAt l = some cap) :
    ∃ run s, s ∈ locSuffixes ∧ run ≠ [] ∧
      (∀ c ∈ run, isExcluded c = false) ∧ cap = run ++ s := by
  unfold tryLocationAt at h
  split at h
  · exact absurd h (by simp)
  · exact locBacktrack_shape le_rfl h

theorem locSuffix_split {s : List Char} (hs : s ∈ locSuffixes) :
    ∃ s' c, s = s' ++ [c] ∧ isPyWhitespace c = false := by
  fin_cases hs
  · exact ⟨"快递".data, '站', by decide, by decide⟩
  · exact ⟨"驿".data, '站', by decide, by decide⟩
  · exact ⟨"代收".data, '点', by decide, by decide⟩
  · exact ⟨"菜".data, '鸟', by decide, by decide⟩
  · exact ⟨"丰".data, '巢', by decide, by decide⟩
  · exact ⟨"速递".data, '易', by decide, by decide⟩

theorem mem_dropWhile_append_last :
    ∀ (l : List Char) (c : Char), isPyWhitespace c = false →
      c ∈ (l ++ [c]).dropWhile isPyWhitespace := by
  intro l c hc
  induction l with
  | nil =>
    rw [List.nil_append, List.dropWhile_cons, hc]
    simp
  | cons a as ih =>
    rw [List.cons_append, List.dropWhile_cons]
    split
    · exact ih
    · simp

theorem stripChars_append_ne_nil (l : List Char) (c : Char)
    (hc : isPyWhitespace c = false) : stripChars (l ++ [c]) ≠ [] := by
  unfold stripChars
  intro h
  rw [List.reverse_eq_nil_iff, List.dropWhile_eq_nil_iff] at h
  have hmem : c ∈ ((l ++ [c]).dropWhile isPyWhitespace).reverse := by
    rw [List.mem_reverse]
    exact mem_dropWhile_append_last l c hc
  have := h c hmem
  rw [hc] at this
  exact Bool.false_ne_true this

theorem parse_sms_eq_none_iff (s : String) :
    parse_sms s = none ↔
      findTracking s = none ∧ findLocation s = none ∧ findCode s = none := by
  obtain ⟨l⟩ := s
  unfold parse_sms
  cases l with
  | nil =>
    constructor
    · intro _
      exact ⟨rfl, rfl, rfl⟩
    · intro _
      rfl
  | cons c cs =>
    have hne : (String.mk (c :: cs)).data ≠ [] := by simp
    rw [if_neg hne]
    dsimp only
    split
    · rename_i hall
      simp [hall.1, hall.2.1, hall.2.2]
    · rename_i hall
      constructor
      · intro h
        exact absurd h (by simp)
      · intro h
        exact absurd h hall

theorem parse_sms_eq_some {s : String} {r : ExtractedFields}
    (h : parse_sms s = some r) :
    r = ⟨findTracking s, findLocation s, findCode s⟩ := by
  unfold parse_sms at h
  split at h
  · exact absurd h (by simp)
  · dsimp only at h
    split at h
    · exact absurd h (by simp)
    · injection h with h
      exact h.symm

theorem findTracking_ne_empty {s t : String}
    (h : findTracking s = some t) : t ≠ "" := by
  unfold findTracking at h
  rw [Option.map_eq_some'] at h
  obtain ⟨d, hd, rfl⟩ := h
  obtain ⟨l₀, hl₀⟩ := search_eq_some hd
  exact string_mk_ne_empty (tryTrackingAt_ne_nil hl₀)

theorem findLocation_ne_empty {s lc : String}
    (h : findLocation s = some lc) : lc ≠ "" := by
  unfold findLocation at h
  rw [Option.map_eq_some'] at h
  obtain ⟨cap, hcap, rfl⟩ := h
  obtain ⟨l₀, hl₀⟩ := search_eq_some hcap
  obtain ⟨run, su, hsu, hrun, _, rfl⟩ := tryLocationAt_shape hl₀
  obtain ⟨s', ch, rfl, hch⟩ := locSuffix_split hsu
  apply string_mk_ne_empty
  rw [← List.append_assoc]
  exact stripChars_append_ne_nil _ ch hch

theorem findCode_ne_empty {s c : String}
    (h : findCode s = some c) : c ≠ "" := by
  unfold findCode at h
  rw [Option.map_eq_some'] at h
  obtain ⟨d, hd, rfl⟩ := h
  apply string_mk_ne_empty
  cases h1 : searchCode1 s.data with
  | some d1 =>
    rw [h1] at hd
    injection hd with hd
    subst hd
    obtain ⟨l₀, hl₀⟩ := search_eq_some h1
    exact tryCode1At_ne_nil hl₀
  | none =>
    rw [h1] at hd
    cases h2 : searchCode2 s.data with
    | some d2 =>
      rw [h2] at hd
      injection hd with hd
      subst hd
      obtain ⟨l₀, hl₀⟩ := search_eq_some h2
      exact tryKeywordCodeAt_ne_nil hl₀
    | none =>
      rw [h2] at hd
      cases h3 : searchCode3 s.data with
      | some d3 =>
        rw [h3] at hd
        injection hd with hd
        subst hd
        obtain ⟨l₀, hl₀⟩ := search_eq_some h3
        exact tryKeywordCodeAt_ne_nil hl₀
      | none =>
        rw [h3] at hd
        obtain ⟨l₀, hl₀⟩ := search_eq_some hd
        exact tryCode4At_ne_nil hl₀

theorem perm_insertByTimeDesc (r : Pkg) (l : List Pkg) :
    (Db.insertByTimeDesc r l).Perm (r :: l) := by
  induction l with
  | nil => exact List.Perm.refl _
  | cons x xs ih =>
    rw [Db.insertByTimeDesc]
    split
    · exact List.Perm.refl _
    · exact (ih.cons x).trans (List.Perm.swap r x xs)

theorem perm_sortByTimeDesc (l : List Pkg) :
    (Db.sortByTimeDesc l).Perm l := by
  induction l with
  | nil => exact List.Perm.refl _
  | cons x xs ih =>
    exact (perm_insertByTimeDesc x _).trans (ih.cons x)

theorem sorted_insertByTimeDesc (r : Pkg) (l : List Pkg)
    (h : l.Pairwise timeGE) : (Db.insertByTimeDesc r l).Pairwise timeGE := by
  induction l with
  | nil => simp [Db.insertByTimeDesc]
  | cons x xs ih =>
    rw [List.pairwise_cons] at h
    rw [Db.insertByTimeDesc]
    split
    · rename_i hle
      rw [List.pairwise_cons]
      refine ⟨?_, List.pairwise_cons.mpr h⟩
      intro y hy
      rw [List.mem_cons] at hy
      rcases hy with rfl | hy
      · exact hle
      · exact le_trans (h.1 y hy) hle
    · rename_i hgt
      rw [List.pairwise_cons]
      refine ⟨?_, ih h.2⟩
      intro y hy
      have hy' : y ∈ r :: xs := (perm_insertByTimeDesc r xs).mem_iff.mp hy
      rw [List.mem_cons] at hy'
      rcases hy' with rfl | hy'
      · exact le_of_not_le hgt
      · exact h.1 y hy'

theorem sorted_sortByTimeDesc (l : List Pkg) :
    (Db.sortByTimeDesc l).Pairwise timeGE := by
  induction l with
  | nil => exact List.Pairwise.nil
  | cons x xs ih => exact sorted_insertByTimeDesc x _ ih

theorem frame_update (r : Pkg) (pid : Int) :
    frameOf (if r.id = pid then { r with status := collectedStatus } else r)
      = frameOf r := by
  split <;> rfl

theorem map_frame_update (tbl : List Pkg) (pid : Int) :
    (tbl.map (fun r => if r.id = pid then { r with status := collectedStatus } else r)).map
        frameOf = tbl.map frameOf := by
  induction tbl with
  | nil => rfl
  | cons r rest ih => simp only [List.map_cons, ih, frame_update]

theorem map_id_update (tbl : List Pkg) (pid : Int) :
    (tbl.map (fun r => if r.id = pid then { r with status := collectedStatus } else r)).map
        Pkg.id = tbl.map Pkg.id := by
  induction tbl with
  | nil => rfl
  | cons r rest ih =>
    simp only [List.map_cons, ih]
    congr 1
    split <;> rfl

theorem db_mark_untouched (tbl : List Pkg) (pid : Int) :
    List.Forall₂ (fun r' r => r.id ≠ pid → r' = r)
      (Db.mark_as_picked_up tbl pid).1 tbl := by
  induction tbl with
  | nil => exact List.Forall₂.nil
  | cons r rest ih =>
    refine List.Forall₂.cons ?_ ih
    intro hne
    simp [hne]

theorem sess_mark_ids (l : List Pkg) (pid : Int) :
    (Session.mark_as_picked_up l pid).1.map Pkg.id = l.map Pkg.id := by
  induction l with
  | nil => rfl
  | cons p rest ih =>
    rw [Session.mark_as_picked_up]
    split
    · rfl
    · simp only [List.map_cons, ih]

theorem sess_mark_bool (l : List Pkg) (pid : Int) :
    (Session.mark_as_picked_up l pid).2
      = l.any (fun r => decide (r.id = pid)) := by
  induction l with
  | nil => rfl
  | cons p rest ih =>
    rw [Session.mark_as_picked_up]
    split
    · rename_i hid
      simp [List.any_cons, hid]
    · rename_i hid
      simp [List.any_cons, hid, ih]

theorem sess_mark_frame (l : List Pkg) (pid : Int) :
    (Session.mark_as_picked_up l pid).1.map frameOf = l.map frameOf ∧
      List.Forall₂ (fun r' r => r.id ≠ pid → r' = r)
        (Session.mark_as_picked_up l pid).1 l := by
  induction l with
  | nil => exact ⟨rfl, List.Forall₂.nil⟩
  | cons p rest ih =>
    rw [Session.mark_as_picked_up]
    split
    · rename_i hid
      constructor
      · rfl
      · refine List.Forall₂.cons (fun hne => absurd hid hne) ?_
        exact List.forall₂_same.mpr (fun a _ _ => rfl)
    · constructor
      · simp only [List.map_cons, ih.1]
      · exact List.Forall₂.cons (fun _ => rfl) ih.2

theorem any_map_general {α β : Type} (f : α → β) (p : β → Bool) :
    ∀ l : List α, (l.map f).any p = l.any (fun a => p (f a)) := by
  intro l
  induction l with
  | nil => rfl
  | cons a as ih => simp [List.any_cons, ih]

theorem any_of_map_id_eq {l l' : List Pkg} (pid : Int)
    (h : l'.map Pkg.id = l.map Pkg.id) :
    l'.any (fun r => decide (r.id = pid)) = l.any (fun r => decide (r.id = pid)) := by
  have h1 : (l'.map Pkg.id).any (fun i => decide (i = pid))
      = (l.map Pkg.id).any (fun i => decide (i = pid)) := by rw [h]
  rw [any_map_general, any_map_general] at h1
  exact h1

/-! ## Claim theorems -/

/-- C4: `parse_sms` applied to the spec's example message returns exactly
tracking id `83226`, pickup location `燕山区4栋快递站` and pickup code
`6A28`. -/
theorem c4_example_message :
    parse_sms ("【递管家】您的快递:*83226已到燕山区4栋快递站，请凭6A28前往人工货架领取")
      = some ⟨some ("83226"), some ("燕山区4栋快递站"), some ("6A28")⟩ := by
  decide

/-- C5: `parse_sms` returns the failure signal exactly when none of the
three field rules captures anything (so in particular on the empty
string), and on success the returned mapping holds exactly the fields the
rules captured. -/
theorem c5_failure_iff_no_capture : ∀ s : String,
    (parse_sms s = none ↔
      findTracking s = none ∧ findLocation s = none ∧ findCode s = none) ∧
    (∀ r, parse_sms s = some r →
      r = ⟨findTracking s, findLocation s, findCode s⟩) := by
  intro s
  exact ⟨parse_sms_eq_none_iff s, fun r h => parse_sms_eq_some h⟩

theorem c5_witness : parse_sms ("") = none :=
  (c5_failure_iff_no_capture ("")).1.mpr (by decide)

/-- C6: every field present in a successful `parse_sms` result is a
non-empty string (the location even after whitespace trimming). -/
theorem c6_fields_nonempty : ∀ (s : String) (r : ExtractedFields),
    parse_sms s = some r →
    (∀ t, r.tracking_id = some t → t ≠ "") ∧
    (∀ lc, r.pickup_location = some lc → lc ≠ "") ∧
    (∀ c, r.pickup_code = some c → c ≠ "") := by
  intro s r h
  have hr := parse_sms_eq_some h
  subst hr
  exact ⟨fun t ht => findTracking_ne_empty ht,
         fun lc hl => findLocation_ne_empty hl,
         fun c hc => findCode_ne_empty hc⟩

theorem c6_witness : ("ABCD" : String) ≠ "" :=
  (c6_fields_nonempty ("取件码ABCD") ⟨none, none, some ("ABCD")⟩ (by decide)).2.2
    ("ABCD") rfl

/-- C7: when both pickup-code pattern 1 and pattern 2 match somewhere in
the input, the code returned by the rule is pattern 1's capture: the four
patterns are tried in their listed order and the first match wins. -/
theorem c7_pattern1_priority : ∀ (s : String) (c1 c2 : List Char),
    searchCode1 s.data = some c1 → searchCode2 s.data = some c2 →
    findCode s = some (String.mk c1) := by
  intro s c1 c2 h1 _
  unfold findCode
  rw [h1]
  rfl

theorem c7_witness :
    findCode ("请凭AB12前往取件码:XY99") = some (String.mk ("AB12".data)) :=
  c7_pattern1_priority ("请凭AB12前往取件码:XY99") ("AB12".data) ("XY99".data)
    (by decide) (by decide)

/-- C10: the location rule never matches a facility suffix word placed
immediately after an arrival marker: every capture it produces consists
of at least one non-excluded character followed by a suffix word, and an
arrival marker followed directly by a suffix word yields no match at that
occurrence. -/
theorem c10_location_needs_interior :
    (∀ l cap, tryLocationAt l = some cap →
      ∃ run s, s ∈ locSuffixes ∧ run ≠ [] ∧
        (∀ c ∈ run, isExcluded c = false) ∧ cap = run ++ s) ∧
    (∀ m s, m ∈ locMarkers → s ∈ locSuffixes →
      tryLocationAt (m ++ s) = none) := by
  constructor
  · intro l cap h
    exact tryLocationAt_shape h
  · intro m s hm hs
    fin_cases hm <;> fin_cases hs <;> decide

theorem c10_witness : tryLocationAt ("已到".data ++ "快递站".data) = none :=
  c10_location_needs_interior.2 ("已到".data) ("快递站".data)
    (by decide) (by decide)

/-- C1 counterexample: in both store variants, after a first successful
`mark_as_picked_up` on id 1 the second call on the same id still finds
the record and returns `true`, not `false` as the claim states. -/
theorem c1_counterexample :
    (Session.mark_as_picked_up
        [⟨1, "83226", "6A28", "燕山区4栋快递站", pendingStatus, "2024-01-01 10:00:00"⟩]
        1).2 = true ∧
    (Session.mark_as_picked_up
        (Session.mark_as_picked_up
          [⟨1, "83226", "6A28", "燕山区4栋快递站", pendingStatus, "2024-01-01 10:00:00"⟩]
          1).1 1).2 = true ∧
    (Db.mark_as_picked_up
        [⟨1, "83226", "6A28", "燕山区4栋快递站", pendingStatus, "2024-01-01 10:00:00"⟩]
        1).2 = true ∧
    (Db.mark_as_picked_up
        (Db.mark_as_picked_up
          [⟨1, "83226", "6A28", "燕山区4栋快递站", pendingStatus, "2024-01-01 10:00:00"⟩]
          1).1 1).2 = true := by
  decide

/-- C1 (amended): in both variants `mark_as_picked_up` returns whether a
record with the id exists; it updates unconditionally on status, and
since it preserves the set of ids a second call on the same id returns
the same boolean as the first (true, not false). -/
theorem c1_mark_repeat_same : ∀ (l : List Pkg) (pid : Int),
    ((Session.mark_as_picked_up l pid).2
        = l.any (fun r => decide (r.id = pid)) ∧
      (Session.mark_as_picked_up (Session.mark_as_picked_up l pid).1 pid).2
        = (Session.mark_as_picked_up l pid).2) ∧
    ((Db.mark_as_picked_up l pid).2
        = l.any (fun r => decide (r.id = pid)) ∧
      (Db.mark_as_picked_up (Db.mark_as_picked_up l pid).1 pid).2
        = (Db.mark_as_picked_up l pid).2) := by
  intro l pid
  refine ⟨⟨sess_mark_bool l pid, ?_⟩, rfl, ?_⟩
  · rw [sess_mark_bool, sess_mark_bool]
    exact any_of_map_id_eq pid (sess_mark_ids l pid)
  · exact any_of_map_id_eq pid (map_id_update l pid)

/-- C2 counterexample: with two pending records inserted older-first, the
session store's `get_pending_packages` returns them in insertion order —
the older record first — although its `added_time` is strictly smaller,
contradicting the claimed most-recent-first order. -/
theorem c2_counterexample :
    Session.get_pending_packages
        [⟨1, "", "", "", pendingStatus, "2024-01-01 00:00:00"⟩,
         ⟨2, "", "", "", pendingStatus, "2024-01-01 00:00:01"⟩]
      = [⟨1, "", "", "", pendingStatus, "2024-01-01 00:00:00"⟩,
         ⟨2, "", "", "", pendingStatus, "2024-01-01 00:00:01"⟩] ∧
    ("2024-01-01 00:00:00" : String) < "2024-01-01 00:00:01" := by
  refine ⟨by decide, ?_⟩
  rw [String.lt_iff_toList_lt]
  decide

/-- C2 (amended): both variants return exactly the records with status
`待领取`; the durable store orders them by `added_time` descending (tie
order left to the SQL engine), while the session store keeps insertion
order without any reordering. -/
theorem c2_pending_contents : ∀ (tbl l : List Pkg),
    (Session.get_pending_packages l
        = l.filter (fun p => decide (p.status = pendingStatus))) ∧
    ((Db.get_pending_packages tbl).Perm
        (tbl.filter (fun r => decide (r.status = pendingStatus))) ∧
      (Db.get_pending_packages tbl).Pairwise timeGE) := by
  intro tbl l
  exact ⟨rfl, perm_sortByTimeDesc _, sorted_sortByTimeDesc _⟩

theorem c2_witness :
    Session.get_pending_packages ([] : List Pkg)
      = ([] : List Pkg).filter (fun p => decide (p.status = pendingStatus)) :=
  (c2_pending_contents [] []).1

/-- C8: in both variants `mark_as_picked_up` changes at most the status
field: every record keeps its id, tracking id, pickup code, pickup
location and added time, and records whose id does not match are left
entirely unchanged. -/
theorem c8_mark_frame : ∀ (l : List Pkg) (pid : Int),
    ((Db.mark_as_picked_up l pid).1.map frameOf = l.map frameOf ∧
      List.Forall₂ (fun r' r => r.id ≠ pid → r' = r)
        (Db.mark_as_picked_up l pid).1 l) ∧
    ((Session.mark_as_picked_up l pid).1.map frameOf = l.map frameOf ∧
      List.Forall₂ (fun r' r => r.id ≠ pid → r' = r)
        (Session.mark_as_picked_up l pid).1 l) := by
  intro l pid
  exact ⟨⟨map_frame_update l pid, db_mark_untouched l pid⟩, sess_mark_frame l pid⟩

theorem c8_witness :
    (Db.mark_as_picked_up
        [⟨7, "t7", "C0DE", "驿站", pendingStatus, "2024-02-02 08:00:00"⟩] 7).1.map
        frameOf
      = [⟨7, "t7", "C0DE", "驿站", pendingStatus, "2024-02-02 08:00:00"⟩].map
        frameOf :=
  (c8_mark_frame [⟨7, "t7", "C0DE", "驿站", pendingStatus, "2024-02-02 08:00:00"⟩]
    7).1.1

/-- C3: the claim states a failed import leaves the store unchanged, but
the import block overwrites `packages` before validating the ids: on a
document whose only record lacks an `id` key the import is reported as
failed while `packages` has already been replaced by the imported data —
a partial application, contradicting the block's own failure message. -/
theorem c3_import_partially_applies :
    (Session.importData ⟨[⟨some 1⟩], 2⟩ [⟨none⟩]).2 = false ∧
    (Session.importData ⟨[⟨some 1⟩], 2⟩ [⟨none⟩]).1.packages = [⟨none⟩] ∧
    (Session.importData ⟨[⟨some 1⟩], 2⟩ [⟨none⟩]).1
      ≠ (⟨[⟨some 1⟩], 2⟩ : Session.ImportState) := by
  decide

theorem maxList_spec : ∀ (i : Int) (is : List Int),
    Session.maxList (i :: is) ∈ i :: is ∧
      ∀ j ∈ i :: is, j ≤ Session.maxList (i :: is) := by
  intro i is
  induction is generalizing i with
  | nil =>
    constructor
    · simp [Session.maxList]
    · intro j hj
      rw [List.mem_singleton] at hj
      subst hj
      simp [Session.maxList]
  | cons k ks ih =>
    obtain ⟨hmem, hle⟩ := ih k
    have hfold : Session.maxList (i :: k :: ks)
        = max i (Session.maxList (k :: ks)) := rfl
    constructor
    · rw [hfold]
      rcases max_choice i (Session.maxList (k :: ks)) with h | h <;> rw [h]
      · exact List.mem_cons_self i _
      · exact List.mem_cons_of_mem i hmem
    · intro j hj
      rw [List.mem_cons] at hj
      rcases hj with rfl | hj
      · rw [hfold]
        exact le_max_left _ _
      · rw [hfold]
        exact le_trans (hle j hj) (le_max_right _ _)

theorem idsOf_cons {r : Session.JRec} {rest : List Session.JRec}
    {ids : List Int} (h : Session.idsOf (r :: rest) = some ids) :
    ∃ i is, r.idOpt = some i ∧ Session.idsOf rest = some is ∧ ids = i :: is := by
  rw [Session.idsOf] at h
  cases hr : r.idOpt with
  | none =>
    rw [hr] at h
    exact absurd h (by simp)
  | some i =>
    rw [hr] at h
    cases hrest : Session.idsOf rest with
    | none =>
      rw [hrest] at h
      exact absurd h (by simp)
    | some is =>
      rw [hrest] at h
      injection h with h
      exact ⟨i, is, rfl, rfl, h.symm⟩

/-- C9: a successful import of a non-empty array sets the next-id counter
to the maximum imported id plus one (`maxList` being the true maximum of
the imported ids), and `add_package` hands out exactly the current
counter value, so the next create returns that id. -/
theorem c9_import_sets_counter :
    ∀ (s : Session.ImportState) (data : List Session.JRec) (ids : List Int),
      data ≠ [] → Session.idsOf data = some ids →
      ((Session.importData s data).1.next_id = Session.maxList ids + 1 ∧
        (Session.importData s data).2 = true) ∧
      (Session.maxList ids ∈ ids ∧ ∀ j ∈ ids, j ≤ Session.maxList ids) ∧
      (∀ (st : Session.SessionState) (d : ExtractedFields) (now : String),
        (Session.add_package st d now).2 = st.next_id) := by
  intro s data ids hne hids
  refine ⟨?_, ?_, fun st d now => rfl⟩
  · cases data with
    | nil => exact absurd rfl hne
    | cons r rest =>
      constructor
      · unfold Session.importData
        rw [hids]
      · unfold Session.importData
        rw [hids]
  · cases data with
    | nil => exact absurd rfl hne
    | cons r rest =>
      obtain ⟨i, is, _, _, rfl⟩ := idsOf_cons hids
      exact maxList_spec i is

theorem c9_witness :
    (Session.importData ⟨[], 1⟩ [⟨some 5⟩]).1.next_id = 6 ∧
    (Session.importData ⟨[], 1⟩ [⟨some 5⟩]).2 = true ∧
    (Session.add_package ⟨[], 6⟩ ⟨none, none, none⟩ "2024-01-01 00:00:00").2 = 6 :=
  ⟨(c9_import_sets_counter ⟨[], 1⟩ [⟨some 5⟩] [5] (by decide) (by decide)).1.1,
   (c9_import_sets_counter ⟨[], 1⟩ [⟨some 5⟩] [5] (by decide) (by decide)).1.2,
   (c9_import_sets_counter ⟨[], 1⟩ [⟨some 5⟩] [5] (by decide) (by decide)).2.2
     ⟨[], 6⟩ ⟨none, none, none⟩ ("2024-01-01 00:00:00")⟩
